import Mathlib

/-!
# Verification of the crossexpand concurrent event-routing core

Shallow embedding of the priority ring-buffer queue (`include/core/event_queue.hpp`,
`src/core/event_queue.cpp`), the worker run loop and the pool lifecycle
(`src/core/multithreaded_processor.cpp`), together with proofs of the spec's
testable properties.

Modelling conventions:
* C++ `size_t` / `uint64_t` index arithmetic is `Nat`; the wrapping unsigned
  subtraction `head - tail` in `LockFreeQueue::size` is modelled explicitly as
  `(head + (2^64 - tail)) % 2^64`.  The bit mask `x & (Capacity - 1)` is kept
  as `x &&& (Cap - 1)`; for the power-of-two capacities enforced by the
  `static_assert` it equals `x % Cap`.
* A ring slot's `ready` flag and its `data` field are merged into one
  `Option` value: `none` is `ready = false`, `some v` is `ready = true` with
  payload `v`.  The code never reads `data` of a slot whose `ready` flag is
  false, so no information is lost.
* Statistics counters (`total_pushed_`, `total_popped_`, `drops_by_priority_`,
  `sequence_counter_`) are monotone `uint64_t` counters that advance by one per
  operation; 2^64 increments are unreachable, so they are plain `Nat`.
* Wall-clock fields (timestamps, uptime, events-per-second) are outside every
  claim considered here and are omitted.
-/

namespace Crossexpand

/-! ## The SPSC ring (`LockFreeQueue<T, Capacity>` in `event_queue.hpp`) -/

/-- State of one `LockFreeQueue<T, Capacity>`: `head_`, `tail_` and the slot
array.  `slots i = some v` models `slots_[i].ready == true` with
`slots_[i].data == v`; `slots i = none` models `ready == false`.  Indices at or
above the capacity are never touched by the operations. -/
structure LockFreeQueue (α : Type) : Type where
  head : Nat
  tail : Nat
  slots : Nat → Option α

/-- A freshly constructed `LockFreeQueue`: `head_ = tail_ = 0`, every slot's
`ready` flag false. -/
def LockFreeQueue.mk0 (α : Type) : LockFreeQueue α :=
  { head := 0, tail := 0, slots := fun _ => none }

/-- `LockFreeQueue::try_push`: computes `next_head = (head+1) & (Capacity-1)`,
fails when it equals `tail_`, otherwise writes the slot at `head_` (data write
then `ready := true`, merged into one `Option` write) and publishes
`head_ := next_head`. -/
def try_push (Cap : Nat) (q : LockFreeQueue α) (item : α) : Bool × LockFreeQueue α :=
  let head := q.head
  let next_head := (head + 1) &&& (Cap - 1)
  if next_head = q.tail then
    (false, q)
  else
    (true, { q with
      slots := fun i => if i = head then some item else q.slots i,
      head := next_head })

/-- `LockFreeQueue::try_pop`: reads the `ready` flag of the slot at `tail_`
(`none` means empty), otherwise takes the data, clears `ready` and advances
`tail_ := (tail+1) & (Capacity-1)`. -/
def try_pop (Cap : Nat) (q : LockFreeQueue α) : Option α × LockFreeQueue α :=
  let tail := q.tail
  match q.slots tail with
  | none => (none, q)
  | some item =>
    (some item, { q with
      slots := fun i => if i = tail then none else q.slots i,
      tail := (tail + 1) &&& (Cap - 1) })

/-- Wrapping `size_t` subtraction `a - b` (64-bit two's-complement). -/
def sub_wrap64 (a b : Nat) : Nat := (a + (2 ^ 64 - b)) % 2 ^ 64

/-- `LockFreeQueue::size`: `(head_ - tail_) & (Capacity - 1)` with wrapping
unsigned subtraction. -/
def LockFreeQueue.size (Cap : Nat) (q : LockFreeQueue α) : Nat :=
  sub_wrap64 q.head q.tail &&& (Cap - 1)

/-- `LockFreeQueue::empty`: `size() == 0`. -/
def LockFreeQueue.isEmpty (Cap : Nat) (q : LockFreeQueue α) : Bool :=
  LockFreeQueue.size Cap q == 0

/-- `LockFreeQueue::full`: `size() == Capacity - 1`. -/
def LockFreeQueue.full (Cap : Nat) (q : LockFreeQueue α) : Bool :=
  LockFreeQueue.size Cap q == Cap - 1

/-- `LockFreeQueue::capacity`: `Capacity - 1`, one slot reserved to
disambiguate full from empty. -/
def LockFreeQueue.capacity (Cap : Nat) : Nat := Cap - 1

/-- The `static_assert((Capacity & (Capacity - 1)) == 0)` of the source:
the slot count is a power of two. -/
def PowTwo (Cap : Nat) : Prop := ∃ m, Cap = 2 ^ m

/-! ## Modular index arithmetic -/

theorem mask_eq_mod {Cap : Nat} (hk : PowTwo Cap) (x : Nat) :
    x &&& (Cap - 1) = x % Cap := by
  obtain ⟨m, rfl⟩ := hk
  exact Nat.and_pow_two_sub_one_eq_mod x m

theorem mod_cases (x Cap : Nat) (h : x < 2 * Cap) (h0 : 0 < Cap) :
    (x < Cap ∧ x % Cap = x) ∨ (Cap ≤ x ∧ x % Cap = x - Cap) := by
  rcases Nat.lt_or_ge x Cap with h1 | h1
  · exact Or.inl ⟨h1, Nat.mod_eq_of_lt h1⟩
  · refine Or.inr ⟨h1, ?_⟩
    rw [Nat.mod_eq_sub_mod h1, Nat.mod_eq_of_lt (by omega)]

/-- Cyclic distance from `a` forward to `b` in a ring of `Cap` slots. -/
def dist (Cap a b : Nat) : Nat := (b + Cap - a) % Cap

theorem dist_lt (Cap a b : Nat) (h0 : 0 < Cap) : dist Cap a b < Cap :=
  Nat.mod_lt _ h0

theorem dist_self (Cap a : Nat) (ha : a ≤ Cap) : dist Cap a a = 0 := by
  unfold dist
  have : a + Cap - a = Cap := by omega
  rw [this, Nat.mod_self]

theorem dist_add (Cap a j : Nat) (ha : a < Cap) (hj : j < Cap) :
    dist Cap a ((a + j) % Cap) = j := by
  have h0 : 0 < Cap := by omega
  unfold dist
  rcases mod_cases (a + j) Cap (by omega) h0 with ⟨h1, e1⟩ | ⟨h1, e1⟩ <;> rw [e1]
  · rcases mod_cases (a + j + Cap - a) Cap (by omega) h0 with ⟨h2, e2⟩ | ⟨h2, e2⟩ <;>
      rw [e2] <;> omega
  · rcases mod_cases (a + j - Cap + Cap - a) Cap (by omega) h0 with ⟨h2, e2⟩ | ⟨h2, e2⟩ <;>
      rw [e2] <;> omega

theorem add_dist (Cap a b : Nat) (ha : a < Cap) (hb : b < Cap) :
    (a + dist Cap a b) % Cap = b := by
  have h0 : 0 < Cap := by omega
  unfold dist
  rcases mod_cases (b + Cap - a) Cap (by omega) h0 with ⟨h1, e1⟩ | ⟨h1, e1⟩ <;> rw [e1]
  · rcases mod_cases (a + (b + Cap - a)) Cap (by omega) h0 with ⟨h2, e2⟩ | ⟨h2, e2⟩ <;>
      rw [e2] <;> omega
  · rcases mod_cases (a + (b + Cap - a - Cap)) Cap (by omega) h0 with ⟨h2, e2⟩ | ⟨h2, e2⟩ <;>
      rw [e2] <;> omega

theorem dist_eq_zero_iff (Cap a b : Nat) (ha : a < Cap) (hb : b < Cap) :
    dist Cap a b = 0 ↔ b = a := by
  have h0 : 0 < Cap := by omega
  unfold dist
  rcases mod_cases (b + Cap - a) Cap (by omega) h0 with ⟨h1, e1⟩ | ⟨h1, e1⟩ <;>
    rw [e1] <;> omega

theorem dist_succ_right (Cap a b : Nat) (ha : a < Cap) (hb : b < Cap)
    (h : dist Cap a b < Cap - 1) :
    dist Cap a ((b + 1) % Cap) = dist Cap a b + 1 := by
  have h0 : 0 < Cap := by omega
  unfold dist at *
  rcases mod_cases (b + 1) Cap (by omega) h0 with ⟨h1, e1⟩ | ⟨h1, e1⟩ <;> rw [e1]
  · rcases mod_cases (b + Cap - a) Cap (by omega) h0 with ⟨h2, e2⟩ | ⟨h2, e2⟩ <;>
      rw [e2] at h ⊢ <;>
      [skip; skip] <;>
      rcases mod_cases (b + 1 + Cap - a) Cap (by omega) h0 with ⟨h3, e3⟩ | ⟨h3, e3⟩ <;>
      rw [e3] <;> omega
  · rcases mod_cases (b + Cap - a) Cap (by omega) h0 with ⟨h2, e2⟩ | ⟨h2, e2⟩ <;>
      rw [e2] at h ⊢ <;>
      [skip; skip] <;>
      rcases mod_cases (b + 1 - Cap + Cap - a) Cap (by omega) h0 with ⟨h3, e3⟩ | ⟨h3, e3⟩ <;>
      rw [e3] <;> omega

theorem dist_succ_left (Cap a b : Nat) (ha : a < Cap) (hb : b < Cap)
    (h : 0 < dist Cap a b) :
    dist Cap ((a + 1) % Cap) b + 1 = dist Cap a b := by
  have h0 : 0 < Cap := by omega
  unfold dist at *
  rcases mod_cases (a + 1) Cap (by omega) h0 with ⟨h1, e1⟩ | ⟨h1, e1⟩ <;> rw [e1]
  · rcases mod_cases (b + Cap - a) Cap (by omega) h0 with ⟨h2, e2⟩ | ⟨h2, e2⟩ <;>
      rw [e2] at h ⊢ <;>
      [skip; skip] <;>
      rcases mod_cases (b + Cap - (a + 1)) Cap (by omega) h0 with ⟨h3, e3⟩ | ⟨h3, e3⟩ <;>
      rw [e3] <;> omega
  · rcases mod_cases (b + Cap - a) Cap (by omega) h0 with ⟨h2, e2⟩ | ⟨h2, e2⟩ <;>
      rw [e2] at h ⊢ <;>
      [skip; skip] <;>
      rcases mod_cases (b + Cap - (a + 1 - Cap)) Cap (by omega) h0 with ⟨h3, e3⟩ | ⟨h3, e3⟩ <;>
      rw [e3] <;> omega

theorem succ_eq_iff_dist_max (Cap a b : Nat) (ha : a < Cap) (hb : b < Cap)
    (h2 : 2 ≤ Cap) :
    ((b + 1) % Cap = a ↔ dist Cap a b = Cap - 1) := by
  have h0 : 0 < Cap := by omega
  unfold dist
  rcases mod_cases (b + 1) Cap (by omega) h0 with ⟨h1, e1⟩ | ⟨h1, e1⟩ <;> rw [e1] <;>
    rcases mod_cases (b + Cap - a) Cap (by omega) h0 with ⟨h3, e3⟩ | ⟨h3, e3⟩ <;>
    rw [e3] <;> omega

/-! ## Sequential abstraction: a ring represents a FIFO list

`RingRepr Cap q l` says the ring state `q` is a well-formed sequential state
holding exactly the FIFO contents `l` (oldest first, starting at `tail_`).
Every state reachable from a fresh ring by sequential `try_push`/`try_pop`
satisfies it. -/

structure RingRepr (Cap : Nat) (q : LockFreeQueue α) (l : List α) : Prop where
  hhead : q.head < Cap
  htail : q.tail < Cap
  hlen : l.length = dist Cap q.tail q.head
  hocc : ∀ j : Nat, j < l.length → q.slots ((q.tail + j) % Cap) = l[j]?
  hfree : ∀ i : Nat, i < Cap → l.length ≤ dist Cap q.tail i → q.slots i = none

theorem ringRepr_mk0 (α : Type) (Cap : Nat) (h0 : 0 < Cap) :
    RingRepr Cap (LockFreeQueue.mk0 α) ([] : List α) := by
  refine ⟨h0, h0, ?_, ?_, ?_⟩
  · show ([] : List α).length = dist Cap 0 0
    rw [dist_self Cap 0 (by omega)]
    rfl
  · intro j hj; simp at hj
  · intro i _ _; rfl

theorem try_push_full (Cap : Nat) (hk : PowTwo Cap) (h2 : 2 ≤ Cap)
    {q : LockFreeQueue α} {l : List α} (hr : RingRepr Cap q l) (x : α)
    (hfull : l.length = Cap - 1) :
    try_push Cap q x = (false, q) := by
  have hlen := hr.hlen
  have hcond : (q.head + 1) % Cap = q.tail := by
    rw [succ_eq_iff_dist_max Cap q.tail q.head hr.htail hr.hhead h2]
    omega
  unfold try_push
  simp only [mask_eq_mod hk]
  rw [if_pos hcond]

theorem try_push_ok (Cap : Nat) (hk : PowTwo Cap) (h2 : 2 ≤ Cap)
    {q : LockFreeQueue α} {l : List α} (hr : RingRepr Cap q l) (x : α)
    (hlt : l.length < Cap - 1) :
    (try_push Cap q x).1 = true ∧ RingRepr Cap (try_push Cap q x).2 (l ++ [x]) := by
  have h0 : 0 < Cap := by omega
  have hlen := hr.hlen
  have hcond : ¬ (q.head + 1) % Cap = q.tail := by
    rw [succ_eq_iff_dist_max Cap q.tail q.head hr.htail hr.hhead h2]
    omega
  unfold try_push
  simp only [mask_eq_mod hk]
  rw [if_neg hcond]
  dsimp only
  refine ⟨rfl, ?_, hr.htail, ?_, ?_, ?_⟩
  · exact Nat.mod_lt _ h0
  · simp only [List.length_append, List.length_singleton]
    rw [dist_succ_right Cap q.tail q.head hr.htail hr.hhead (by omega)]
    omega
  · intro j hj
    simp only [List.length_append, List.length_singleton] at hj
    dsimp only
    rcases Nat.lt_or_ge j l.length with hjl | hjl
    · have hne : (q.tail + j) % Cap ≠ q.head := by
        intro he
        have hd := dist_add Cap q.tail j hr.htail (by omega)
        rw [he] at hd
        omega
      rw [if_neg hne, hr.hocc j hjl, List.getElem?_append_left hjl]
    · have hj' : j = l.length := by omega
      subst hj'
      have he : (q.tail + l.length) % Cap = q.head := by
        rw [hlen]
        exact add_dist Cap q.tail q.head hr.htail hr.hhead
      rw [he, if_pos rfl, List.getElem?_append_right (Nat.le_refl _)]
      simp
  · intro i hi hd
    simp only [List.length_append, List.length_singleton] at hd
    dsimp only
    have hne : i ≠ q.head := by
      intro he
      subst he
      omega
    rw [if_neg hne]
    exact hr.hfree i hi (by omega)

theorem try_pop_eq_none {q : LockFreeQueue α} (h : q.slots q.tail = none) (Cap : Nat) :
    try_pop Cap q = (none, q) := by
  simp only [try_pop, h]

theorem try_pop_eq_some {q : LockFreeQueue α} {x : α} (h : q.slots q.tail = some x)
    (Cap : Nat) :
    try_pop Cap q =
      (some x, { head := q.head, tail := (q.tail + 1) &&& (Cap - 1),
                 slots := fun i => if i = q.tail then none else q.slots i }) := by
  simp only [try_pop, h]

theorem try_pop_empty (Cap : Nat) {q : LockFreeQueue α}
    (hr : RingRepr Cap q ([] : List α)) : try_pop Cap q = (none, q) :=
  try_pop_eq_none (hr.hfree q.tail hr.htail (by simp)) Cap

theorem try_pop_ok (Cap : Nat) (hk : PowTwo Cap) (h2 : 2 ≤ Cap)
    {q : LockFreeQueue α} {x : α} {xs : List α} (hr : RingRepr Cap q (x :: xs)) :
    (try_pop Cap q).1 = some x ∧ RingRepr Cap (try_pop Cap q).2 xs := by
  have h0 : 0 < Cap := by omega
  have hlen := hr.hlen
  have ht := hr.htail
  have hh := hr.hhead
  have hdist_pos : 0 < dist Cap q.tail q.head := by
    simp only [List.length_cons] at hlen
    omega
  have hsome : q.slots q.tail = some x := by
    have h := hr.hocc 0 (by simp)
    rw [Nat.add_zero, Nat.mod_eq_of_lt hr.htail] at h
    simpa using h
  rw [try_pop_eq_some hsome]
  dsimp only
  simp only [mask_eq_mod hk]
  refine ⟨trivial, hh, Nat.mod_lt _ h0, ?_, ?_, ?_⟩
  · dsimp only
    have := dist_succ_left Cap q.tail q.head ht hh hdist_pos
    simp only [List.length_cons] at hlen
    omega
  · intro j hj
    have hxs_lt : xs.length < Cap := by
      have := dist_lt Cap q.tail q.head h0
      simp only [List.length_cons] at hlen
      omega
    dsimp only
    have hidx : ((q.tail + 1) % Cap + j) % Cap = (q.tail + (j + 1)) % Cap := by
      rw [Nat.mod_add_mod]
      congr 1
      omega
    rw [hidx]
    have hne : (q.tail + (j + 1)) % Cap ≠ q.tail := by
      intro he
      have hd := dist_add Cap q.tail (j + 1) ht (by omega)
      rw [he] at hd
      rw [dist_self Cap q.tail (by omega)] at hd
      omega
    rw [if_neg hne]
    have h := hr.hocc (j + 1) (by simp only [List.length_cons]; omega)
    rw [h]
    simp
  · intro i hi hd
    dsimp only at hd ⊢
    by_cases he : i = q.tail
    · subst he
      rw [if_pos rfl]
    · rw [if_neg he]
      have hpos : 0 < dist Cap q.tail i := by
        rcases Nat.eq_zero_or_pos (dist Cap q.tail i) with hz | hp
        · rw [dist_eq_zero_iff Cap q.tail i ht hi] at hz
          exact absurd hz he
        · exact hp
      have hstep := dist_succ_left Cap q.tail i ht hi hpos
      exact hr.hfree i hi (by simp only [List.length_cons]; omega)

theorem size_eq_dist (Cap : Nat) (hk : PowTwo Cap) (hdvd : Cap ∣ 2 ^ 64)
    {q : LockFreeQueue α} (hh : q.head < Cap) (ht : q.tail < Cap) :
    LockFreeQueue.size Cap q = dist Cap q.tail q.head := by
  obtain ⟨c, hc⟩ := hdvd
  match c, hc with
  | 0, hc => omega
  | c + 1, hc =>
    unfold LockFreeQueue.size sub_wrap64
    rw [mask_eq_mod hk, Nat.mod_mod_of_dvd _ ⟨c + 1, hc⟩]
    have he : q.head + (2 ^ 64 - q.tail) = (q.head + Cap - q.tail) + Cap * c := by
      rw [hc, Nat.mul_succ]
      omega
    rw [he, Nat.add_mul_mod_self_left]
    rfl

theorem size_eq_length (Cap : Nat) (hk : PowTwo Cap) (hdvd : Cap ∣ 2 ^ 64)
    {q : LockFreeQueue α} {l : List α} (hr : RingRepr Cap q l) :
    LockFreeQueue.size Cap q = l.length := by
  rw [size_eq_dist Cap hk hdvd hr.hhead hr.htail, hr.hlen]

/-! ## The multi-priority `EventQueue` (`event_queue.hpp` / `event_queue.cpp`) -/

/-- `SimpleKeyEvent`: keycode, character, pressed flag.  The
`steady_clock` timestamp is wall-clock data outside every claim and is
omitted. -/
structure SimpleKeyEvent where
  keycode : Int
  character : Int
  is_pressed : Bool
deriving DecidableEq

/-- `ProcessingEvent`.  `priority` is the underlying integral value of the
`EventPriority` enum (`LOW = 0`, `NORMAL = 1`, `HIGH = 2`, `CRITICAL = 3`),
kept as `Nat` because `EventQueue::push` guards against values outside the
enum range (the construction timestamp is omitted as wall-clock data). -/
structure ProcessingEvent where
  key_event : SimpleKeyEvent
  priority : Nat
  sequence_id : Nat
deriving DecidableEq

/-- `EventQueue::QUEUE_SIZE`: slot count of each priority ring. -/
def QUEUE_SIZE : Nat := 4096

/-- `EventQueue::NUM_PRIORITIES`. -/
def NUM_PRIORITIES : Nat := 4

theorem powTwo_queue_size : PowTwo QUEUE_SIZE := ⟨12, by norm_num [QUEUE_SIZE]⟩

theorem queue_size_dvd : QUEUE_SIZE ∣ 2 ^ 64 := ⟨2 ^ 52, by norm_num [QUEUE_SIZE]⟩

theorem two_le_queue_size : 2 ≤ QUEUE_SIZE := by norm_num [QUEUE_SIZE]

/-- State of an `EventQueue`: the four priority rings (`queues_`), the
statistics counters and the sequence counter.  All counters are monotone
`uint64_t` counters modelled as `Nat` (see the file header). -/
structure EventQueue where
  queues : Fin 4 → LockFreeQueue ProcessingEvent
  total_pushed : Nat
  total_popped : Nat
  drops_by_priority : Fin 4 → Nat
  sequence_counter : Nat

/-- A freshly constructed `EventQueue`: empty rings, all counters zero
(`EventQueue::EventQueue`). -/
def EventQueue.mk0 : EventQueue where
  queues := fun _ => LockFreeQueue.mk0 ProcessingEvent
  total_pushed := 0
  total_popped := 0
  drops_by_priority := fun _ => 0
  sequence_counter := 0

/-- `EventQueue::push(const ProcessingEvent&)`:
1. reject a priority index outside the enum range (no state change);
2. `event_copy.sequence_id = sequence_counter_.fetch_add(1)` — the copy gets
   the old counter value, the counter advances even if the ring is full;
3. `try_push` on the ring of that priority; on success increment
   `total_pushed_`, on failure increment `drops_by_priority_[priority]`. -/
def EventQueue.push (q : EventQueue) (event : ProcessingEvent) : Bool × EventQueue :=
  if h : NUM_PRIORITIES ≤ event.priority then
    (false, q)
  else
    let pi : Fin 4 := ⟨event.priority, Nat.lt_of_not_le h⟩
    let event_copy : ProcessingEvent := { event with sequence_id := q.sequence_counter }
    let q1 : EventQueue := { q with sequence_counter := q.sequence_counter + 1 }
    let r := try_push QUEUE_SIZE (q1.queues pi) event_copy
    if r.1 then
      (true, { q1 with
        queues := Function.update q1.queues pi r.2,
        total_pushed := q1.total_pushed + 1 })
    else
      (false, { q1 with
        drops_by_priority := Function.update q1.drops_by_priority pi
          (q1.drops_by_priority pi + 1) })

/-- `EventQueue::pop`: scan the rings from priority `NUM_PRIORITIES - 1`
(CRITICAL) down to `0` (LOW), returning the first item a `try_pop` yields and
incrementing `total_popped_`; `false` when all four rings are empty. -/
def EventQueue.pop (q : EventQueue) : Option ProcessingEvent × EventQueue :=
  match try_pop QUEUE_SIZE (q.queues 3) with
  | (some e, r) =>
    (some e, { q with
      queues := Function.update q.queues 3 r,
      total_popped := q.total_popped + 1 })
  | (none, _) =>
  match try_pop QUEUE_SIZE (q.queues 2) with
  | (some e, r) =>
    (some e, { q with
      queues := Function.update q.queues 2 r,
      total_popped := q.total_popped + 1 })
  | (none, _) =>
  match try_pop QUEUE_SIZE (q.queues 1) with
  | (some e, r) =>
    (some e, { q with
      queues := Function.update q.queues 1 r,
      total_popped := q.total_popped + 1 })
  | (none, _) =>
  match try_pop QUEUE_SIZE (q.queues 0) with
  | (some e, r) =>
    (some e, { q with
      queues := Function.update q.queues 0 r,
      total_popped := q.total_popped + 1 })
  | (none, _) => (none, q)

/-- `EventQueue::total_size`: sum of the four ring sizes (loop over
`queues_`, unrolled). -/
def EventQueue.total_size (q : EventQueue) : Nat :=
  LockFreeQueue.size QUEUE_SIZE (q.queues 0) + LockFreeQueue.size QUEUE_SIZE (q.queues 1) +
    LockFreeQueue.size QUEUE_SIZE (q.queues 2) + LockFreeQueue.size QUEUE_SIZE (q.queues 3)

/-- `Stats::total_dropped` as computed by `EventQueue::get_stats`: sum of the
per-priority drop counters. -/
def EventQueue.total_dropped (q : EventQueue) : Nat :=
  q.drops_by_priority 0 + q.drops_by_priority 1 +
    q.drops_by_priority 2 + q.drops_by_priority 3

/-- `EventQueue::is_healthy`: false when some ring is `full()`; otherwise
false when `total_pushed > 1000` and the lifetime drop rate
`total_dropped / total_pushed` exceeds `0.01`; otherwise true.  The source
compares `static_cast<double>(total_dropped) / total_pushed > 0.01`; the
threshold is modelled by the exact rational comparison
`100 * total_dropped > total_pushed`. -/
def EventQueue.is_healthy (q : EventQueue) : Bool :=
  if LockFreeQueue.full QUEUE_SIZE (q.queues 0) then false
  else if LockFreeQueue.full QUEUE_SIZE (q.queues 1) then false
  else if LockFreeQueue.full QUEUE_SIZE (q.queues 2) then false
  else if LockFreeQueue.full QUEUE_SIZE (q.queues 3) then false
  else if 1000 < q.total_pushed ∧ q.total_pushed < 100 * q.total_dropped then false
  else true

/-- Sequential executions: the states an `EventQueue` can be in after any
sequence of `push` and `pop` calls on a fresh queue. -/
inductive EventQueue.Reach : EventQueue → Prop
  | init : EventQueue.Reach EventQueue.mk0
  | push (q : EventQueue) (e : ProcessingEvent) :
      EventQueue.Reach q → EventQueue.Reach (q.push e).2
  | pop (q : EventQueue) : EventQueue.Reach q → EventQueue.Reach q.pop.2

/-- Sequential well-formedness of an `EventQueue` state: each ring represents
a FIFO list and the push/pop counters balance against the ring contents. -/
def EQInv (q : EventQueue) : Prop :=
  ∃ ls : Fin 4 → List ProcessingEvent,
    (∀ i : Fin 4, RingRepr QUEUE_SIZE (q.queues i) (ls i)) ∧
    q.total_pushed =
      q.total_popped +
        ((ls 0).length + (ls 1).length + (ls 2).length + (ls 3).length)

theorem sum4_len_update (ls : Fin 4 → List ProcessingEvent) (i : Fin 4)
    (L : List ProcessingEvent) :
    (Function.update ls i L 0).length + (Function.update ls i L 1).length +
        (Function.update ls i L 2).length + (Function.update ls i L 3).length +
        (ls i).length =
      (ls 0).length + (ls 1).length + (ls 2).length + (ls 3).length + L.length := by
  fin_cases i <;>
    simp +decide [Function.update] <;> omega

theorem EQInv_push (q : EventQueue) (e : ProcessingEvent) (h : EQInv q) :
    EQInv (q.push e).2 := by
  obtain ⟨ls, hls, hcount⟩ := h
  unfold EventQueue.push
  split
  · exact ⟨ls, hls, hcount⟩
  · rename_i hvalid
    dsimp only
    set pi : Fin 4 := ⟨e.priority, Nat.lt_of_not_le hvalid⟩ with hpi
    have hr := hls pi
    have hlen_le : (ls pi).length ≤ QUEUE_SIZE - 1 := by
      have hd := dist_lt QUEUE_SIZE (q.queues pi).tail (q.queues pi).head
        (by norm_num [QUEUE_SIZE])
      have := hr.hlen
      omega
    by_cases hfull : (ls pi).length = QUEUE_SIZE - 1
    · rw [try_push_full QUEUE_SIZE powTwo_queue_size two_le_queue_size hr _ hfull]
      exact ⟨ls, hls, hcount⟩
    · have hok := try_push_ok QUEUE_SIZE powTwo_queue_size two_le_queue_size hr
        { e with sequence_id := q.sequence_counter } (by omega)
      rw [hok.1, if_pos rfl]
      refine ⟨Function.update ls pi
        (ls pi ++ [{ e with sequence_id := q.sequence_counter }]), ?_, ?_⟩
      · intro j
        dsimp only
        by_cases hji : j = pi
        · subst hji
          rw [Function.update_same, Function.update_same]
          exact hok.2
        · rw [Function.update_noteq hji, Function.update_noteq hji]
          exact hls j
      · dsimp only
        have hs := sum4_len_update ls pi
          (ls pi ++ [{ e with sequence_id := q.sequence_counter }])
        simp only [List.length_append, List.length_singleton] at hs
        omega

theorem EQInv_pop_branch (q : EventQueue) (ls : Fin 4 → List ProcessingEvent)
    (hls : ∀ j, RingRepr QUEUE_SIZE (q.queues j) (ls j))
    (hcount : q.total_pushed = q.total_popped +
      ((ls 0).length + (ls 1).length + (ls 2).length + (ls 3).length))
    (i : Fin 4) (x : ProcessingEvent) (xs : List ProcessingEvent) (hi : ls i = x :: xs)
    (r : LockFreeQueue ProcessingEvent) (hr : RingRepr QUEUE_SIZE r xs) :
    EQInv { q with
      queues := Function.update q.queues i r,
      total_popped := q.total_popped + 1 } := by
  refine ⟨Function.update ls i xs, ?_, ?_⟩
  · intro j
    dsimp only
    by_cases hji : j = i
    · subst hji
      rw [Function.update_same, Function.update_same]
      exact hr
    · rw [Function.update_noteq hji, Function.update_noteq hji]
      exact hls j
  · dsimp only
    have hs := sum4_len_update ls i xs
    rw [hi] at hs
    simp only [List.length_cons] at hs
    omega

theorem EQInv_pop (q : EventQueue) (h : EQInv q) : EQInv q.pop.2 := by
  obtain ⟨ls, hls, hcount⟩ := h
  unfold EventQueue.pop
  cases h3 : ls 3 with
  | cons x xs =>
    have hok := try_pop_ok QUEUE_SIZE powTwo_queue_size two_le_queue_size (h3 ▸ hls 3)
    have hp : try_pop QUEUE_SIZE (q.queues 3) =
        (some x, (try_pop QUEUE_SIZE (q.queues 3)).2) :=
      Prod.ext_iff.mpr ⟨hok.1, rfl⟩
    rw [hp]
    exact EQInv_pop_branch q ls hls hcount 3 x xs h3 _ hok.2
  | nil =>
  rw [try_pop_empty QUEUE_SIZE (h3 ▸ hls 3)]
  cases h2 : ls 2 with
  | cons x xs =>
    have hok := try_pop_ok QUEUE_SIZE powTwo_queue_size two_le_queue_size (h2 ▸ hls 2)
    have hp : try_pop QUEUE_SIZE (q.queues 2) =
        (some x, (try_pop QUEUE_SIZE (q.queues 2)).2) :=
      Prod.ext_iff.mpr ⟨hok.1, rfl⟩
    rw [hp]
    exact EQInv_pop_branch q ls hls hcount 2 x xs h2 _ hok.2
  | nil =>
  rw [try_pop_empty QUEUE_SIZE (h2 ▸ hls 2)]
  cases h1 : ls 1 with
  | cons x xs =>
    have hok := try_pop_ok QUEUE_SIZE powTwo_queue_size two_le_queue_size (h1 ▸ hls 1)
    have hp : try_pop QUEUE_SIZE (q.queues 1) =
        (some x, (try_pop QUEUE_SIZE (q.queues 1)).2) :=
      Prod.ext_iff.mpr ⟨hok.1, rfl⟩
    rw [hp]
    exact EQInv_pop_branch q ls hls hcount 1 x xs h1 _ hok.2
  | nil =>
  rw [try_pop_empty QUEUE_SIZE (h1 ▸ hls 1)]
  cases h0 : ls 0 with
  | cons x xs =>
    have hok := try_pop_ok QUEUE_SIZE powTwo_queue_size two_le_queue_size (h0 ▸ hls 0)
    have hp : try_pop QUEUE_SIZE (q.queues 0) =
        (some x, (try_pop QUEUE_SIZE (q.queues 0)).2) :=
      Prod.ext_iff.mpr ⟨hok.1, rfl⟩
    rw [hp]
    exact EQInv_pop_branch q ls hls hcount 0 x xs h0 _ hok.2
  | nil =>
  rw [try_pop_empty QUEUE_SIZE (h0 ▸ hls 0)]
  exact ⟨ls, hls, hcount⟩

theorem reach_EQInv (q : EventQueue) (h : EventQueue.Reach q) : EQInv q := by
  induction h with
  | init =>
    exact ⟨fun _ => [], fun i => ringRepr_mk0 _ _ (by norm_num [QUEUE_SIZE]), rfl⟩
  | push q e _ ih => exact EQInv_push q e ih
  | pop q _ ih => exact EQInv_pop q ih

/-! ## Derived facts used by the claims -/

theorem total_size_eq_sum (q : EventQueue) (ls : Fin 4 → List ProcessingEvent)
    (hls : ∀ j : Fin 4, RingRepr QUEUE_SIZE (q.queues j) (ls j)) :
    q.total_size = (ls 0).length + (ls 1).length + (ls 2).length + (ls 3).length := by
  unfold EventQueue.total_size
  rw [size_eq_length QUEUE_SIZE powTwo_queue_size queue_size_dvd (hls 0),
      size_eq_length QUEUE_SIZE powTwo_queue_size queue_size_dvd (hls 1),
      size_eq_length QUEUE_SIZE powTwo_queue_size queue_size_dvd (hls 2),
      size_eq_length QUEUE_SIZE powTwo_queue_size queue_size_dvd (hls 3)]

theorem ring_size_le_capacity (q : LockFreeQueue ProcessingEvent)
    (l : List ProcessingEvent) (hr : RingRepr QUEUE_SIZE q l) :
    LockFreeQueue.size QUEUE_SIZE q ≤ LockFreeQueue.capacity QUEUE_SIZE := by
  rw [size_eq_length QUEUE_SIZE powTwo_queue_size queue_size_dvd hr, hr.hlen]
  have := dist_lt QUEUE_SIZE q.tail q.head (by norm_num [QUEUE_SIZE])
  unfold LockFreeQueue.capacity
  omega

/-- `push` increments `total_pushed_` exactly on success and never touches
`total_popped_`. -/
theorem push_counter (q : EventQueue) (e : ProcessingEvent) :
    ((q.push e).1 = true → (q.push e).2.total_pushed = q.total_pushed + 1) ∧
    ((q.push e).1 = false → (q.push e).2.total_pushed = q.total_pushed) ∧
    (q.push e).2.total_popped = q.total_popped := by
  unfold EventQueue.push
  split
  · exact ⟨fun h => by simp at h, fun _ => rfl, rfl⟩
  · dsimp only
    split
    · exact ⟨fun _ => rfl, fun h => by simp at h, rfl⟩
    · exact ⟨fun h => by simp at h, fun _ => rfl, rfl⟩

/-- `pop` increments `total_popped_` exactly on success, never touches
`total_pushed_`, and leaves the state unchanged on failure. -/
theorem pop_counter (q : EventQueue) :
    (∀ x, q.pop.1 = some x → q.pop.2.total_popped = q.total_popped + 1) ∧
    (q.pop.1 = none → q.pop.2 = q) ∧
    q.pop.2.total_pushed = q.total_pushed := by
  unfold EventQueue.pop
  split
  · exact ⟨fun x h => rfl, fun h => by simp at h, rfl⟩
  · split
    · exact ⟨fun x h => rfl, fun h => by simp at h, rfl⟩
    · split
      · exact ⟨fun x h => rfl, fun h => by simp at h, rfl⟩
      · split
        · exact ⟨fun x h => rfl, fun h => by simp at h, rfl⟩
        · exact ⟨fun x h => by simp at h, fun _ => rfl, rfl⟩

/-! ## Claims -/

/-- **C1** (conservation / counter invariants): in every state reachable by a
sequence of sequential `push`/`pop` calls on a fresh `EventQueue`,
`total_popped ≤ total_pushed`, `total_pushed - total_popped = total_size()`
(equivalently `total_pushed = total_popped + total_size()`), and every
priority ring's size is at most its `capacity()`.  Together with
`push_counter`/`pop_counter` (the counters advance by one exactly on each
successful push resp. pop, starting from zero), this gives
`total_size() = N - M` after `N` successful pushes and `M` successful pops. -/
theorem C1_conservation (q : EventQueue) (h : EventQueue.Reach q) :
    q.total_popped ≤ q.total_pushed ∧
    q.total_pushed - q.total_popped = q.total_size ∧
    q.total_pushed = q.total_popped + q.total_size ∧
    (∀ i : Fin 4,
      LockFreeQueue.size QUEUE_SIZE (q.queues i) ≤ LockFreeQueue.capacity QUEUE_SIZE) := by
  obtain ⟨ls, hls, hcount⟩ := reach_EQInv q h
  have hts := total_size_eq_sum q ls hls
  exact ⟨by omega, by omega, by omega, fun i => ring_size_le_capacity _ _ (hls i)⟩

/-- Witness for C1 at the concrete reachable state reached by one push. -/
theorem C1_conservation_witness :
    ((EventQueue.mk0.push ⟨⟨1, 1, true⟩, 1, 0⟩).2.total_popped ≤
        (EventQueue.mk0.push ⟨⟨1, 1, true⟩, 1, 0⟩).2.total_pushed) ∧
      (EventQueue.mk0.push ⟨⟨1, 1, true⟩, 1, 0⟩).2.total_pushed -
          (EventQueue.mk0.push ⟨⟨1, 1, true⟩, 1, 0⟩).2.total_popped =
        (EventQueue.mk0.push ⟨⟨1, 1, true⟩, 1, 0⟩).2.total_size ∧
      (EventQueue.mk0.push ⟨⟨1, 1, true⟩, 1, 0⟩).2.total_pushed =
        (EventQueue.mk0.push ⟨⟨1, 1, true⟩, 1, 0⟩).2.total_popped +
          (EventQueue.mk0.push ⟨⟨1, 1, true⟩, 1, 0⟩).2.total_size ∧
      (∀ i : Fin 4,
        LockFreeQueue.size QUEUE_SIZE
            ((EventQueue.mk0.push ⟨⟨1, 1, true⟩, 1, 0⟩).2.queues i) ≤
          LockFreeQueue.capacity QUEUE_SIZE) :=
  C1_conservation (EventQueue.mk0.push ⟨⟨1, 1, true⟩, 1, 0⟩).2
    (EventQueue.Reach.push EventQueue.mk0 ⟨⟨1, 1, true⟩, 1, 0⟩ EventQueue.Reach.init)

/-- **C6** (health predicate): `is_healthy()` returns false exactly when some
priority ring is `full()`, or `total_pushed > 1000` and the lifetime drop
ratio `total_dropped / total_pushed` exceeds `1/100` (the source compares as
`double`; the threshold is the exact rational comparison
`100 * total_dropped > total_pushed`).  Since `is_healthy` is a pure function
of the current state, it returns true again as soon as neither condition
holds. -/
theorem C6_health (q : EventQueue) :
    q.is_healthy = false ↔
      (∃ i : Fin 4, LockFreeQueue.full QUEUE_SIZE (q.queues i) = true) ∨
        (1000 < q.total_pushed ∧ q.total_pushed < 100 * q.total_dropped) := by
  unfold EventQueue.is_healthy
  by_cases f0 : LockFreeQueue.full QUEUE_SIZE (q.queues 0) = true
  · rw [if_pos f0]
    exact ⟨fun _ => Or.inl ⟨0, f0⟩, fun _ => rfl⟩
  · rw [if_neg f0]
    by_cases f1 : LockFreeQueue.full QUEUE_SIZE (q.queues 1) = true
    · rw [if_pos f1]
      exact ⟨fun _ => Or.inl ⟨1, f1⟩, fun _ => rfl⟩
    · rw [if_neg f1]
      by_cases f2 : LockFreeQueue.full QUEUE_SIZE (q.queues 2) = true
      · rw [if_pos f2]
        exact ⟨fun _ => Or.inl ⟨2, f2⟩, fun _ => rfl⟩
      · rw [if_neg f2]
        by_cases f3 : LockFreeQueue.full QUEUE_SIZE (q.queues 3) = true
        · rw [if_pos f3]
          exact ⟨fun _ => Or.inl ⟨3, f3⟩, fun _ => rfl⟩
        · rw [if_neg f3]
          by_cases hc : 1000 < q.total_pushed ∧ q.total_pushed < 100 * q.total_dropped
          · rw [if_pos hc]
            exact ⟨fun _ => Or.inr hc, fun _ => rfl⟩
          · rw [if_neg hc]
            constructor
            · intro h; simp at h
            · intro h
              rcases h with ⟨i, hi⟩ | h
              · fin_cases i
                · exact absurd hi f0
                · exact absurd hi f1
                · exact absurd hi f2
                · exact absurd hi f3
              · exact absurd h hc

/-- The three events of the C2 scenario (keycodes 1,2,3; priorities LOW = 0,
HIGH = 2, CRITICAL = 3; `sequence_id` fields are overwritten at push time). -/
def evLOW : ProcessingEvent := ⟨⟨1, 1, true⟩, 0, 0⟩

def evHIGH : ProcessingEvent := ⟨⟨2, 2, true⟩, 2, 0⟩

def evCRIT : ProcessingEvent := ⟨⟨3, 3, true⟩, 3, 0⟩

/-- The queue after pushing `evLOW`, `evHIGH`, `evCRIT` (in that order) into a
fresh `EventQueue`. -/
def c2_state : EventQueue :=
  (((EventQueue.mk0.push evLOW).2.push evHIGH).2.push evCRIT).2

/-- **C2** (strict priority order of `pop`): pushing events with priorities
LOW, HIGH, CRITICAL (in that order) into an empty queue succeeds, and three
pops return them in the order CRITICAL, HIGH, LOW (each carrying the sequence
id assigned at push time); a fourth pop finds the queue empty.  This is the
`pop` scan from the CRITICAL ring down to the LOW ring returning the first
available item. -/
theorem C2_priority_order :
    (EventQueue.mk0.push evLOW).1 = true ∧
    ((EventQueue.mk0.push evLOW).2.push evHIGH).1 = true ∧
    (((EventQueue.mk0.push evLOW).2.push evHIGH).2.push evCRIT).1 = true ∧
    c2_state.pop.1 = some { evCRIT with sequence_id := 2 } ∧
    c2_state.pop.2.pop.1 = some { evHIGH with sequence_id := 1 } ∧
    c2_state.pop.2.pop.2.pop.1 = some { evLOW with sequence_id := 0 } ∧
    c2_state.pop.2.pop.2.pop.2.pop.1 = none := by
  decide

/-- The three NORMAL-priority events of the C7 scenario (keycodes 10, 11, 12,
priority NORMAL = 1). -/
def evA : ProcessingEvent := ⟨⟨10, 10, true⟩, 1, 0⟩

def evB : ProcessingEvent := ⟨⟨11, 11, true⟩, 1, 0⟩

def evC : ProcessingEvent := ⟨⟨12, 12, true⟩, 1, 0⟩

/-- The queue after pushing `evA`, `evB`, `evC` (all NORMAL priority, in that
order) into a fresh `EventQueue`. -/
def c7_state : EventQueue :=
  (((EventQueue.mk0.push evA).2.push evB).2.push evC).2

/-- **C7** (FIFO within one priority level): pushing `A`, `B`, `C` all at
NORMAL priority into an empty queue succeeds, and three pops return them in
exactly that order (ring order), `A` first. -/
theorem C7_fifo_within_priority :
    (EventQueue.mk0.push evA).1 = true ∧
    ((EventQueue.mk0.push evA).2.push evB).1 = true ∧
    (((EventQueue.mk0.push evA).2.push evB).2.push evC).1 = true ∧
    c7_state.pop.1 = some { evA with sequence_id := 0 } ∧
    c7_state.pop.2.pop.1 = some { evB with sequence_id := 1 } ∧
    c7_state.pop.2.pop.2.pop.1 = some { evC with sequence_id := 2 } ∧
    c7_state.pop.2.pop.2.pop.2.pop.1 = none := by
  decide

/-- **C10** (invalid priority): `push` with an event whose priority index is
at or above `NUM_PRIORITIES` returns false and leaves the state completely
unchanged — same rings, same `total_pushed`/`total_popped`, same per-priority
drop counters (the failure is *not* counted as a drop), and same
`sequence_counter` (the guard fires before `sequence_counter_.fetch_add`). -/
theorem C10_invalid_priority (q : EventQueue) (e : ProcessingEvent)
    (h : 4 ≤ e.priority) : q.push e = (false, q) := by
  unfold EventQueue.push
  rw [dif_pos (show NUM_PRIORITIES ≤ e.priority from h)]

/-- Witness for C10: priority index 7 on a fresh queue. -/
theorem C10_invalid_priority_witness :
    4 ≤ (ProcessingEvent.mk ⟨9, 9, true⟩ 7 0).priority ∧
      EventQueue.mk0.push ⟨⟨9, 9, true⟩, 7, 0⟩ = (false, EventQueue.mk0) :=
  ⟨by decide, C10_invalid_priority EventQueue.mk0 ⟨⟨9, 9, true⟩, 7, 0⟩ (by decide)⟩

/-- A concretely full priority ring: slots `0..4094` hold `evA`, `head_` is
`4095`, `tail_` is `0` — `size() = 4095 = capacity()`. -/
def fullRing : LockFreeQueue ProcessingEvent :=
  { head := 4095, tail := 0, slots := fun i => if i < 4095 then some evA else none }

theorem fullRing_repr : RingRepr QUEUE_SIZE fullRing (List.replicate 4095 evA) := by
  refine ⟨?_, ?_, ?_, ?_, ?_⟩
  · norm_num [fullRing, QUEUE_SIZE]
  · norm_num [fullRing, QUEUE_SIZE]
  · rw [List.length_replicate]
    norm_num [fullRing, QUEUE_SIZE, dist]
  · intro j hj
    rw [List.length_replicate] at hj
    simp only [fullRing, QUEUE_SIZE]
    rw [Nat.zero_add, Nat.mod_eq_of_lt (by omega), if_pos hj,
      List.getElem?_replicate, if_pos hj]
  · intro i hi hd
    rw [List.length_replicate] at hd
    simp only [fullRing, QUEUE_SIZE] at hi hd ⊢
    have hdi : dist 4096 0 i = i := by
      unfold dist
      rw [Nat.sub_zero, Nat.add_mod_right, Nat.mod_eq_of_lt hi]
    rw [hdi] at hd
    rw [if_neg (by omega)]

/-- **C3** (drop accounting): when the ring of priority `pi` already holds
`capacity()` items, pushing an event of that priority returns false,
increments `drops_by_priority[pi]` by exactly one (other priorities
untouched), leaves `total_pushed` and `total_popped` unchanged, and leaves
every ring unchanged — the single failed `try_push` attempt is the whole
call: nothing blocks and nothing is retried. -/
theorem C3_drop_on_full (q : EventQueue) (e : ProcessingEvent) (pi : Fin 4)
    (l : List ProcessingEvent) (hp : e.priority = pi.val)
    (hr : RingRepr QUEUE_SIZE (q.queues pi) l)
    (hfull : l.length = LockFreeQueue.capacity QUEUE_SIZE) :
    (q.push e).1 = false ∧
    (q.push e).2.drops_by_priority pi = q.drops_by_priority pi + 1 ∧
    (∀ j : Fin 4, j ≠ pi →
      (q.push e).2.drops_by_priority j = q.drops_by_priority j) ∧
    (q.push e).2.total_pushed = q.total_pushed ∧
    (q.push e).2.total_popped = q.total_popped ∧
    (∀ j : Fin 4, (q.push e).2.queues j = q.queues j) := by
  have hvalid : ¬ NUM_PRIORITIES ≤ e.priority := by
    rw [hp]
    have := pi.isLt
    simp only [NUM_PRIORITIES]
    omega
  unfold EventQueue.push
  rw [dif_neg hvalid]
  dsimp only
  have hpi_eq : (⟨e.priority, Nat.lt_of_not_le hvalid⟩ : Fin 4) = pi := Fin.ext hp
  rw [hpi_eq]
  rw [try_push_full QUEUE_SIZE powTwo_queue_size two_le_queue_size hr _ hfull]
  refine ⟨rfl, ?_, ?_, rfl, rfl, fun j => rfl⟩
  · show Function.update q.drops_by_priority pi (q.drops_by_priority pi + 1) pi =
      q.drops_by_priority pi + 1
    rw [Function.update_same]
  · intro j hj
    show Function.update q.drops_by_priority pi (q.drops_by_priority pi + 1) j =
      q.drops_by_priority j
    rw [Function.update_noteq hj]

/-- The C3 witness state: ring 1 (NORMAL) full, the others empty. -/
def c3_queue : EventQueue where
  queues := fun j => if j = 1 then fullRing else LockFreeQueue.mk0 ProcessingEvent
  total_pushed := 4095
  total_popped := 0
  drops_by_priority := fun _ => 0
  sequence_counter := 4095

/-- Witness for C3: pushing a NORMAL-priority event into `c3_queue`. -/
theorem C3_drop_on_full_witness :
    (c3_queue.push evB).1 = false ∧
    (c3_queue.push evB).2.drops_by_priority 1 = c3_queue.drops_by_priority 1 + 1 ∧
    (∀ j : Fin 4, j ≠ 1 →
      (c3_queue.push evB).2.drops_by_priority j = c3_queue.drops_by_priority j) ∧
    (c3_queue.push evB).2.total_pushed = c3_queue.total_pushed ∧
    (c3_queue.push evB).2.total_popped = c3_queue.total_popped ∧
    (∀ j : Fin 4, (c3_queue.push evB).2.queues j = c3_queue.queues j) :=
  C3_drop_on_full c3_queue evB 1 (List.replicate 4095 evA) rfl fullRing_repr
    (by rw [List.length_replicate]; rfl)

/-- **C8** (single-ring contract, sequential use): for any power-of-two slot
count `Cap = 2^m` with `2 ≤ Cap` and `m ≤ 64` (the `static_assert` plus the
`size_t` index width) and any sequentially reachable ring state,
`try_push` fails exactly when `size() = capacity()` (ring full),
`try_pop` fails exactly when `size() = 0` (ring empty), and
`capacity()` is the slot count minus one (one slot reserved to disambiguate
full from empty). -/
theorem C8_ring_contract (Cap m : Nat) (hm : Cap = 2 ^ m) (hm64 : m ≤ 64)
    (h2 : 2 ≤ Cap) (q : LockFreeQueue ProcessingEvent) (l : List ProcessingEvent)
    (hr : RingRepr Cap q l) (x : ProcessingEvent) :
    ((try_push Cap q x).1 = false ↔
      LockFreeQueue.size Cap q = LockFreeQueue.capacity Cap) ∧
    ((try_pop Cap q).1 = none ↔ LockFreeQueue.size Cap q = 0) ∧
    LockFreeQueue.capacity Cap = Cap - 1 := by
  have hdvd : Cap ∣ 2 ^ 64 := hm ▸ pow_dvd_pow 2 hm64
  have hk : PowTwo Cap := ⟨m, hm⟩
  have hsize := size_eq_length Cap hk hdvd hr
  have hlen_lt : l.length < Cap := by
    have h1 := dist_lt Cap q.tail q.head (by omega)
    have h2 := hr.hlen
    omega
  refine ⟨?_, ?_, rfl⟩
  · simp only [LockFreeQueue.capacity]
    constructor
    · intro hfail
      by_contra hne
      have hlt : l.length < Cap - 1 := by
        rw [hsize] at hne
        omega
      have hok := (try_push_ok Cap hk h2 hr x hlt).1
      rw [hok] at hfail
      simp at hfail
    · intro hfull
      rw [try_push_full Cap hk h2 hr x (by omega)]
  · cases l with
    | nil =>
      rw [try_pop_empty Cap hr]
      simp [hsize]
    | cons y ys =>
      rw [(try_pop_ok Cap hk h2 hr).1]
      constructor
      · intro h
        simp at h
      · intro h
        rw [hsize] at h
        simp at h

/-- Witness for C8 at `Cap = 4096 = 2^12` and a fresh ring. -/
theorem C8_ring_contract_witness :
    ((try_push QUEUE_SIZE (LockFreeQueue.mk0 ProcessingEvent) evA).1 = false ↔
      LockFreeQueue.size QUEUE_SIZE (LockFreeQueue.mk0 ProcessingEvent) =
        LockFreeQueue.capacity QUEUE_SIZE) ∧
    ((try_pop QUEUE_SIZE (LockFreeQueue.mk0 ProcessingEvent)).1 = none ↔
      LockFreeQueue.size QUEUE_SIZE (LockFreeQueue.mk0 ProcessingEvent) = 0) ∧
    LockFreeQueue.capacity QUEUE_SIZE = QUEUE_SIZE - 1 :=
  C8_ring_contract QUEUE_SIZE 12 (by norm_num [QUEUE_SIZE]) (by norm_num)
    (by norm_num [QUEUE_SIZE]) (LockFreeQueue.mk0 ProcessingEvent) []
    (ringRepr_mk0 ProcessingEvent QUEUE_SIZE (by norm_num [QUEUE_SIZE])) evA

/-! ## C9: concurrent consumers on one SPSC ring

The source pairs the single-producer/single-consumer ring with several
event-processor workers calling `pop()` concurrently.  To examine that, the
ring and `LockFreeQueue::try_pop` are re-modelled at the granularity of the
individual atomic operations of the source, with the `ready` flags and `data`
cells kept separate exactly as in `Slot`. -/

/-- Shared ring state for the concurrent model (one `Slot` = one `ready` flag
plus one `data` cell). -/
structure ConcRing (α : Type) where
  head : Nat
  tail : Nat
  ready : Nat → Bool
  data : Nat → α

/-- Local state of one consumer thread inside `LockFreeQueue::try_pop`.
`pc` is the next atomic operation to execute:
`0`: `tail = tail_.load(relaxed)`;
`1`: load `slots_[tail].ready` (acquire) — if false, return false;
`2`: `item = std::move(slots_[tail].data)`;
`3`: `slots_[tail].ready.store(false, release)`;
`4`: `tail_.store((tail + 1) & (Capacity - 1), release)`, return true;
`5`: finished, `result` holds the return value. -/
structure Consumer (α : Type) where
  pc : Nat
  t : Nat
  item : Option α
  result : Option Bool
deriving DecidableEq

/-- One atomic step of one consumer executing `LockFreeQueue::try_pop`. -/
def consStep (Cap : Nat) (s : ConcRing α) (c : Consumer α) :
    ConcRing α × Consumer α :=
  match c.pc with
  | 0 => (s, { c with t := s.tail, pc := 1 })
  | 1 =>
    if s.ready c.t then (s, { c with pc := 2 })
    else (s, { c with pc := 5, result := some false })
  | 2 => (s, { c with item := some (s.data c.t), pc := 3 })
  | 3 => ({ s with ready := fun i => if i = c.t then false else s.ready i },
          { c with pc := 4 })
  | 4 => ({ s with tail := (c.t + 1) &&& (Cap - 1) },
          { c with pc := 5, result := some true })
  | _ => (s, c)

/-- Run an interleaving of two consumers: `true` in the schedule steps
consumer 1, `false` steps consumer 2. -/
def runSched (Cap : Nat) : List Bool → ConcRing α × Consumer α × Consumer α →
    ConcRing α × Consumer α × Consumer α
  | [], st => st
  | b :: rest, (s, c1, c2) =>
    if b then
      let sc := consStep Cap s c1
      runSched Cap rest (sc.1, sc.2, c2)
    else
      let sc := consStep Cap s c2
      runSched Cap rest (sc.1, c1, sc.2)

/-- A ring holding exactly one pushed event (at slot 0). -/
def c9_ring : ConcRing ProcessingEvent where
  head := 1
  tail := 0
  ready := fun i => i == 0
  data := fun _ => { evA with sequence_id := 0 }

/-- The interleaving in which both consumers pass the `ready` check before
either clears the flag: consumer 1 executes its first three atomic steps,
then consumer 2 executes its first three, then each finishes. -/
def c9_sched : List Bool :=
  [true, true, true, false, false, false, true, true, false, false]

/-- A consumer that has not started executing yet. -/
def c9_idle : Consumer ProcessingEvent := ⟨0, 0, none, none⟩

/-- **C9 counterexample**: with one producer having pushed a single event and
two consumer threads running `try_pop` concurrently on the same ring (as the
pool's event-processor workers do via `EventQueue::pop`), there is an
interleaving of the source's atomic operations in which *both* pops return
successfully with the *same* event: the event is delivered twice, refuting
at-most-once delivery under concurrent consumers. -/
theorem C9_counterexample_duplicate_delivery :
    (runSched QUEUE_SIZE c9_sched (c9_ring, c9_idle, c9_idle)).2.1.result = some true ∧
    (runSched QUEUE_SIZE c9_sched (c9_ring, c9_idle, c9_idle)).2.2.result = some true ∧
    (runSched QUEUE_SIZE c9_sched (c9_ring, c9_idle, c9_idle)).2.1.item =
      some { evA with sequence_id := 0 } ∧
    (runSched QUEUE_SIZE c9_sched (c9_ring, c9_idle, c9_idle)).2.2.item =
      some { evA with sequence_id := 0 } := by
  decide

/-- `n` sequential `try_pop` calls, collecting the popped items in order. -/
def drain (Cap : Nat) : Nat → LockFreeQueue α → List α × LockFreeQueue α
  | 0, q => ([], q)
  | n + 1, q =>
    match try_pop Cap q with
    | (none, q1) => ([], q1)
    | (some x, q1) => (x :: (drain Cap n q1).1, (drain Cap n q1).2)

theorem drain_spec (Cap : Nat) (hk : PowTwo Cap) (h2 : 2 ≤ Cap)
    (q : LockFreeQueue α) (l : List α) (hr : RingRepr Cap q l) :
    (drain Cap l.length q).1 = l ∧ RingRepr Cap (drain Cap l.length q).2 [] := by
  induction l generalizing q with
  | nil => exact ⟨rfl, hr⟩
  | cons x xs ih =>
    have hok := try_pop_ok Cap hk h2 hr
    have hp : try_pop Cap q = (some x, (try_pop Cap q).2) :=
      Prod.ext_iff.mpr ⟨hok.1, rfl⟩
    have ihr := ih (try_pop Cap q).2 hok.2
    show (drain Cap (xs.length + 1) q).1 = x :: xs ∧
      RingRepr Cap (drain Cap (xs.length + 1) q).2 []
    unfold drain
    rw [hp]
    refine ⟨?_, ihr.2⟩
    show x :: (drain Cap xs.length (try_pop Cap q).2).1 = x :: xs
    rw [ihr.1]

/-- **C9 amended** (at-most-once delivery under the single-consumer
discipline): when pops are executed sequentially — one consumer at a time, as
the SPSC contract of the ring requires — a ring holding the `N` pushed events
`l` yields, in `N` pops, exactly the list `l`: `N` successful pops in total,
each pushed event delivered exactly once, no event observed twice; afterwards
the ring is empty and every further pop fails. -/
theorem C9_amended_single_consumer (Cap : Nat) (hk : PowTwo Cap) (h2 : 2 ≤ Cap)
    (q : LockFreeQueue ProcessingEvent) (l : List ProcessingEvent)
    (hr : RingRepr Cap q l) :
    (drain Cap l.length q).1 = l ∧
    (try_pop Cap (drain Cap l.length q).2).1 = none := by
  have h := drain_spec Cap hk h2 q l hr
  refine ⟨h.1, ?_⟩
  rw [try_pop_empty Cap h.2]

/-- A concrete ring holding the two events `evA`, `evB`. -/
def twoRing : LockFreeQueue ProcessingEvent where
  head := 2
  tail := 0
  slots := fun i => if i = 0 then some evA else if i = 1 then some evB else none

theorem twoRing_repr : RingRepr QUEUE_SIZE twoRing [evA, evB] := by
  refine ⟨?_, ?_, ?_, ?_, ?_⟩
  · norm_num [twoRing, QUEUE_SIZE]
  · norm_num [twoRing, QUEUE_SIZE]
  · norm_num [twoRing, QUEUE_SIZE, dist]
  · intro j hj
    simp only [List.length_cons, List.length_nil] at hj
    interval_cases j <;> decide
  · intro i hi hd
    simp only [twoRing, QUEUE_SIZE, List.length_cons, List.length_nil] at hi hd ⊢
    have hdi : dist 4096 0 i = i := by
      unfold dist
      rw [Nat.sub_zero, Nat.add_mod_right, Nat.mod_eq_of_lt hi]
    rw [hdi] at hd
    rw [if_neg (by omega), if_neg (by omega)]

/-- Witness for the amended C9 at the concrete two-event ring. -/
theorem C9_amended_single_consumer_witness :
    (drain QUEUE_SIZE [evA, evB].length twoRing).1 = [evA, evB] ∧
    (try_pop QUEUE_SIZE (drain QUEUE_SIZE [evA, evB].length twoRing).2).1 = none :=
  C9_amended_single_consumer QUEUE_SIZE powTwo_queue_size two_le_queue_size
    twoRing [evA, evB] twoRing_repr

/-! ## C4: `MultithreadedProcessor` lifecycle (`multithreaded_processor.cpp`)

The pool's `initialize`/`shutdown` pair is modelled over the state the pool
itself observes: the global `is_running_` flag and the owned workers with
their `is_running()` flags.  Wall-clock aspects (the 100 ms start timeout,
joins) are below the granularity of this model; a worker whose `start()`
reported success is `running`, one whose `start()` failed is not. -/

/-- One `ThreadWorker` as the pool observes it: its `is_running()` flag. -/
structure WorkerState where
  running : Bool
deriving DecidableEq

/-- Observable state of a `MultithreadedProcessor`: the `is_running_` flag
and the `workers_` vector. -/
structure ProcessorState where
  is_running : Bool
  workers : List WorkerState
deriving DecidableEq

/-- A freshly constructed processor: not running, no workers. -/
def procFresh : ProcessorState := ⟨false, []⟩

/-- `MultithreadedProcessor::get_stats().active_threads`: the number of owned
workers whose `is_running()` is true. -/
def active_threads (st : ProcessorState) : Nat :=
  st.workers.countP fun w => w.running

/-- `MultithreadedProcessor::initialize` (named `procInit` here):
returns `true` immediately when already running; returns `false` when the
template engine or the text injector fails to initialize (workers untouched);
otherwise `create_worker_threads()` builds the six-worker topology and
`start_worker_threads()` calls `start()` on *every* worker (continuing past
failures), returning `all_started`.  Only when all workers started is
`is_running_` set; on a partial start `initialize` returns `false` with
`is_running_` still `false` and the partially started workers still owned and
running. -/
def procInit (engineOk injectorOk : Bool) (startOk : List Bool)
    (st : ProcessorState) : Bool × ProcessorState :=
  if st.is_running then (true, st)
  else if !engineOk then (false, st)
  else if !injectorOk then (false, st)
  else
    let ws := startOk.map fun ok => WorkerState.mk ok
    if startOk.all id then
      (true, { is_running := true, workers := ws })
    else
      (false, { is_running := st.is_running, workers := ws })

/-- `MultithreadedProcessor::shutdown` (named `procShutdown` here): when
`is_running_` is false it returns immediately *without touching the workers*;
otherwise it clears `is_running_`, stops, joins and destroys every worker
(`stop_worker_threads`, `join_worker_threads`, `cleanup`). -/
def procShutdown (st : ProcessorState) : ProcessorState :=
  if !st.is_running then st
  else { is_running := false, workers := [] }

/-- The C4 failing input: the template engine and text injector initialize,
five of the six workers start, `EventProcessor-2` (index 2) fails its
`start()`. -/
def c4_startOk : List Bool := [true, true, false, true, true, true]

/-- **C4** (the code at the failing input): when one worker's `start()` fails
during pool initialization, `initialize()` does return false — but the
subsequent `shutdown()` call hits the `!is_running_` early return and changes
nothing: the five workers that did start are still running after
`shutdown()` (`active_threads = 5`, not `0`).  `shutdown` is idempotent here
only because it is a no-op; it does not reclaim the partially started
topology.  For contrast, when all six workers start, `initialize` returns
true and `shutdown` does reclaim everything (`active_threads = 0`). -/
theorem C4_partial_start_shutdown_gap :
    (procInit true true c4_startOk procFresh).1 = false ∧
    procShutdown (procInit true true c4_startOk procFresh).2 =
      (procInit true true c4_startOk procFresh).2 ∧
    active_threads (procShutdown (procInit true true c4_startOk procFresh).2) = 5 ∧
    (procInit true true [true, true, true, true, true, true] procFresh).1 = true ∧
    active_threads
      (procShutdown
        (procInit true true [true, true, true, true, true, true] procFresh).2) = 0 ∧
    procShutdown
        (procShutdown
          (procInit true true [true, true, true, true, true, true] procFresh).2) =
      procShutdown
        (procInit true true [true, true, true, true, true, true] procFresh).2 := by
  decide

/-! ## C5: the worker run loop (`ThreadWorker::run`, lines 86-111)

The run loop is modelled over the finite sequence of unit-of-work outcomes
observed before `should_stop_` is set: each `execute_work()` call either
returns normally (`Except.ok worked`) or raises a C++ exception
(`Except.error e`).  The 10 ms idle sleep is wall-clock behaviour outside the
claim. -/

/-- `ThreadWorker::run`: `while (!should_stop_) { bool worked =
execute_work(); if (worked) ++tasks_processed; }`.  There is **no try/catch
around `execute_work()`**: an exception propagates out of `run` (and, `run`
being the thread entry point, terminates the program via `std::terminate`).
The result is the final `tasks_processed_` count, or the escaped exception. -/
def ThreadWorker.run : List (Except String Bool) → Nat → Except String Nat
  | [], n => Except.ok n
  | Except.ok worked :: rest, n =>
      ThreadWorker.run rest (if worked then n + 1 else n)
  | Except.error e :: _, n => Except.error e

/-- Modelled from the spec (for comparison only): the run loop as §4.3/§7
describe it — "an exception/error raised inside one unit of work is caught at
the loop boundary, logged, and the loop continues". -/
def specRun : List (Except String Bool) → Nat → Except String Nat
  | [], n => Except.ok n
  | Except.ok worked :: rest, n => specRun rest (if worked then n + 1 else n)
  | Except.error _ :: rest, n => specRun rest n

/-- **C5 counterexample**: a worker whose first unit of work raises an
exception and whose second would succeed.  The source run loop terminates at
the exception with zero units processed — the loop does *not* continue with
the next iteration — whereas the loop the claim describes (`specRun`) would
catch, continue, and process the second unit. -/
theorem C5_counterexample_uncaught :
    ThreadWorker.run [Except.error "boom", Except.ok true] 0 = Except.error "boom" ∧
    specRun [Except.error "boom", Except.ok true] 0 = Except.ok 1 := by
  constructor
  · rfl
  · rfl

/-- **C5 amended**: an exception raised inside one unit of work is *not*
caught at the run-loop boundary: after an error-free prefix (processed
normally, counting the units that did work), the first error outcome aborts
the loop immediately and propagates out of `run`; the remaining units are
never executed.  Only failures during the worker's own initialization abort
`start()` (which returns false), separate from the run loop. -/
theorem C5_error_propagates (bs : List Bool) (e : String)
    (rest : List (Except String Bool)) (n : Nat) :
    ThreadWorker.run (bs.map Except.ok ++ Except.error e :: rest) n =
      Except.error e ∧
    ThreadWorker.run (bs.map Except.ok) n = Except.ok (n + bs.countP id) := by
  induction bs generalizing n with
  | nil =>
    refine ⟨rfl, ?_⟩
    show Except.ok n = Except.ok (n + [].countP id)
    rw [List.countP_nil, Nat.add_zero]
  | cons b bs ih =>
    constructor
    · show ThreadWorker.run
        (Except.ok b :: (bs.map Except.ok ++ Except.error e :: rest)) n = Except.error e
      show ThreadWorker.run
        (bs.map Except.ok ++ Except.error e :: rest) (if b then n + 1 else n) = Except.error e
      exact (ih (if b then n + 1 else n)).1
    · show ThreadWorker.run (bs.map Except.ok) (if b then n + 1 else n) =
        Except.ok (n + (b :: bs).countP id)
      rw [(ih (if b then n + 1 else n)).2, List.countP_cons]
      cases b <;> simp <;> omega

end Crossexpand
